import Mathlib

/-!
Verification development for the annoy-rs repository: an approximate
nearest-neighbor engine over angular distance, exposed through a C wrapper
(src/annoy-sys/wrapper.cpp, src/annoy-sys/wrapper.hpp).

The wrapper instantiates
  AnnoyIndex<int32_t, float, Angular, Kiss64Random, AnnoyIndexSingleThreadedBuildPolicy>
and forwards each extern C entry point to the corresponding method.  The
engine itself (annoylib.h, kissrandom.h) is vendored outside the src tree,
so the core data model and algorithms below are modelled from the spec
(spec.md), while the wrapper-level glue (the result copy loops and the
build-policy choice) is embedded from wrapper.cpp directly.

Machine floats are modelled as rationals in the store and as reals where a
square root is required (the angular distance).  Machine integer overflow
is modelled with explicit reduction modulo powers of two.
-/

namespace Annoy

/-- Modelled from the spec (section 7, error taxonomy): the error kinds the
core can signal.  The engine code (annoylib.h) is not under src. -/
inductive Err where
  | dimensionMismatch
  | outOfRange
  | notBuilt
  | alreadyBuilt
  | emptyStore
  | formatMismatch
  | finalized
  deriving DecidableEq, Repr

/-- Modelled from the spec (section 3, TreeNode): a forest tree is a strict
binary tree whose Split nodes carry a hyperplane and offset and whose leaves
hold point ids. -/
inductive Tree where
  | leaf : List Nat → Tree
  | split : List ℚ → ℚ → Tree → Tree → Tree
  deriving DecidableEq, Repr

/-- Modelled from the spec (sections 2 and 3): the index state is the
vector store (dense ids, one vector per id), the optional built forest, and
the seed configuration.  Vector components are modelled as rationals. -/
structure Store where
  dim : Nat
  vectors : List (List ℚ)
  forest : Option (List Tree)
  seed : Nat
  deriving DecidableEq, Repr

/-- Modelled from the spec (section 2, RandomSource): kissrandom.h is not
under src; a seedable deterministic generator.  One step of a 64-bit linear
congruential generator, overflow modelled by reduction mod 2 ^ 64. -/
def rngStep (x : Nat) : Nat :=
  (6364136223846793005 * x + 1442695040888963407) % 2 ^ 64

/-- Dot product of two rational vectors. -/
def dot (u v : List ℚ) : ℚ :=
  (List.zipWith (· * ·) u v).sum

/-- Vector of a point id, defaulting to the empty vector out of range. -/
def vecD (s : Store) (i : Nat) : List ℚ :=
  s.vectors.getD i []

/-- Modelled from the spec (section 6): number of stored items. -/
def get_n_items (s : Store) : Nat :=
  s.vectors.length

/-- Modelled from the spec (section 6): the stored vector of one point. -/
def get_item (s : Store) (i : Nat) : Option (List ℚ) :=
  s.vectors.get? i

/-- Modelled from the spec (section 6): a fresh index of a given dimension. -/
def create (f : Nat) : Store :=
  ⟨f, [], none, 0⟩

/-- Modelled from the spec (sections 4.1 and 6): add_item appends a vector;
it fails with DimensionMismatch on a wrong-length vector and with Finalized
after build.  The id hint is accepted at the boundary and the id assigned is
the current count.  Mirrors the bool-plus-error return of the wrapper. -/
def add_item (s : Store) (_idHint : Int) (w : List ℚ) : Store × Option Err :=
  if w.length ≠ s.dim then (s, some .dimensionMismatch)
  else if s.forest.isSome then (s, some .finalized)
  else ({ s with vectors := s.vectors ++ [w] }, none)

/-- Modelled from the spec (section 6): set the stored seed, a 64-bit
quantity. -/
def set_seed (s : Store) (x : Nat) : Store :=
  { s with seed := x % 2 ^ 64 }

/-- Modelled from the spec (section 4.2.1): unbuild discards the trees and
returns the store to the append-only state. -/
def unbuild (s : Store) : Store :=
  { s with forest := none }

/-- Leaf threshold of the tree build (spec, section 3: implementation
chosen). -/
def leafThreshold : Nat := 10

/-- Bound on hyperplane resampling attempts before the deterministic
fallback split (spec, section 4.2.2: bounded number of attempts). -/
def splitRetries : Nat := 3

/-- Tree count used when the caller passes a non-positive count (spec,
section 4.2.3: a heuristic bounded by a hard cap; the cap value is
implementation chosen). -/
def hardCapTrees : Nat := 16

/-- Side of a point relative to a split plane: true when the margin
dot(v, hyperplane) - offset is nonnegative (spec, section 3). -/
def pointSide (vs : List (List ℚ)) (hp : List ℚ) (off : ℚ) (i : Nat) : Bool :=
  decide (0 ≤ dot (vs.getD i []) hp - off)

/-- Modelled from the spec (section 4.2.2): sample a candidate hyperplane
from two randomly chosen distinct points of the current id set; the plane is
their difference and the offset centers it between them. -/
def samplePlane (vs : List (List ℚ)) (ids : List Nat) (rng : Nat) :
    List ℚ × ℚ :=
  let k := ids.length
  let r1 := rngStep rng
  let i1 := ids.getD (r1 % k) 0
  let r2 := rngStep r1
  let i2 := ids.getD ((r1 % k + 1 + r2 % (k - 1)) % k) 0
  let v1 := vs.getD i1 []
  let v2 := vs.getD i2 []
  let hp := List.zipWith (· - ·) v1 v2
  (hp, (dot hp v1 + dot hp v2) / 2)

/-- Modelled from the spec (section 4.2.2): try up to a bounded number of
random hyperplanes, accepting the first whose induced partition leaves
neither side empty. -/
def attemptSplits (vs : List (List ℚ)) (ids : List Nat) :
    Nat → Nat → Option (List ℚ × ℚ × List Nat × List Nat)
  | 0, _ => none
  | t + 1, rng =>
    let po := samplePlane vs ids rng
    let l := ids.filter (pointSide vs po.1 po.2)
    let r := ids.filter (fun i => ! pointSide vs po.1 po.2 i)
    if l ≠ [] ∧ r ≠ [] then some (po.1, po.2, l, r)
    else attemptSplits vs ids t (rngStep rng)

/-- Modelled from the spec (section 4.2.2): recursive tree construction.
Small sets become leaves; otherwise a sampled hyperplane splits the set,
falling back to a deterministic halving split when sampling degenerates.
The fuel argument bounds recursion depth; one unit is spent per level, and
callers pass the item count, which dominates the depth. -/
def buildTreeFuel (vs : List (List ℚ)) : Nat → Nat → List Nat → Tree
  | 0, _, ids => .leaf ids
  | fuel + 1, rng, ids =>
    if ids.length ≤ leafThreshold then .leaf ids
    else
      match attemptSplits vs ids splitRetries rng with
      | some r =>
        .split r.1 r.2.1
          (buildTreeFuel vs fuel (rngStep (rng + 1)) r.2.2.1)
          (buildTreeFuel vs fuel (rngStep (rng + 2)) r.2.2.2)
      | none =>
        .split [] 0
          (buildTreeFuel vs fuel (rngStep (rng + 1))
            (ids.take (ids.length / 2)))
          (buildTreeFuel vs fuel (rngStep (rng + 2))
            (ids.drop (ids.length / 2)))

/-- Effective tree count for a requested count (spec, section 4.2.3:
non-positive means unspecified, bounded by a hard cap). -/
def qeff (q : Int) : Nat :=
  if q ≤ 0 then hardCapTrees else q.toNat

/-- Modelled from the spec (sections 2 and 4.2): the forest is a sequence of
independently built trees over the same store, each seeded deterministically
from the index seed and the tree position. -/
def buildForest (seed : Nat) (q : Nat) (vs : List (List ℚ)) : List Tree :=
  (List.range q).map
    (fun k => buildTreeFuel vs vs.length (rngStep ((seed + k) % 2 ^ 64))
      (List.range vs.length))

/-- Modelled from the spec (section 4.2): build fails on an already built
index and on an empty store, and otherwise installs the forest.  The
num_threads argument is accepted and has no effect on the result, matching
the single-threaded build policy instantiated by the wrapper. -/
def build (s : Store) (q : Int) (_nThreads : Int) : Store × Option Err :=
  if s.forest.isSome then (s, some .alreadyBuilt)
  else if s.vectors.length = 0 then (s, some .emptyStore)
  else ({ s with forest := some (buildForest s.seed (qeff q) s.vectors) },
    none)

/-- Metric tag recorded in the on-disk header for the angular metric
(spec, section 6: a u32 metric tag; the value is implementation chosen). -/
def metricTagAngular : Nat := 1

/-- On-disk format version recorded in the header (spec, section 6). -/
def formatVersion : Nat := 1

/-- Modelled from the spec (sections 3 and 6): the serialized image is a
header (dimension, metric tag, item count, tree count, format version)
followed by the vector payload in a fixed-stride flat layout and the
serialized forest, whose arena nodes serialize as-is. -/
structure Image where
  dim : Nat
  metric : Nat
  count : Nat
  treeCount : Nat
  version : Nat
  data : List ℚ
  trees : List Tree
  deriving DecidableEq, Repr

/-- Fixed-stride flat serialization of the vector payload. -/
def flatten (vs : List (List ℚ)) : List ℚ :=
  vs.flatten

/-- Recover a given count of vectors of a given dimension from the flat
payload. -/
def unflatten (d : Nat) : Nat → List ℚ → List (List ℚ)
  | 0, _ => []
  | c + 1, l => l.take d :: unflatten d c (l.drop d)

/-- Modelled from the spec (sections 4.4 and 6): save serializes the store
and forest into a self-describing image.  Disk I/O failure is outside the
embedding. -/
def save (s : Store) : Image :=
  ⟨s.dim, metricTagAngular, s.vectors.length, (s.forest.getD []).length,
    formatVersion, flatten s.vectors, s.forest.getD []⟩

/-- Modelled from the spec (section 4.4): load checks the header against
the handle and the supported format, then installs the deserialized store
and forest; a mismatched header fails with FormatMismatch. -/
def load (s : Store) (img : Image) : Store × Option Err :=
  if img.dim = s.dim ∧ img.metric = metricTagAngular ∧
      img.version = formatVersion then
    ({ s with
        vectors := unflatten img.dim img.count img.data,
        forest := if img.treeCount = 0 then none else some img.trees },
      none)
  else (s, some .formatMismatch)

/-- Modelled from the spec (section 2, DistanceMetric): the angular
distance of two vectors, the square root of 2 - 2 cos with the cosine
similarity computed from dot products.  Division by a zero norm follows the
Lean convention x / 0 = 0, so two zero vectors are at distance sqrt 2. -/
noncomputable def angular (u v : List ℚ) : ℝ :=
  Real.sqrt (2 - 2 * ((dot u v : ℝ) /
    Real.sqrt ((dot u u : ℝ) * (dot v v : ℝ))))

/-- Modelled from the spec (section 4.3.6): get_distance is a pure function
of the two stored vectors and fails with OutOfRange on an invalid id. -/
noncomputable def get_distance (s : Store) (i j : Nat) : Except Err ℝ :=
  if i < get_n_items s ∧ j < get_n_items s then
    .ok (angular (vecD s i) (vecD s j))
  else .error .outOfRange

/-- Point ids stored in the leaves of a tree, in left-to-right order. -/
def treePoints : Tree → List Nat
  | .leaf ids => ids
  | .split _ _ l r => treePoints l ++ treePoints r

/-- Node count of a tree. -/
def treeSize : Tree → Nat
  | .leaf _ => 1
  | .split _ _ l r => treeSize l + treeSize r + 1

/-- Priority order of the shared queue: entries keyed by smaller margins
come first (spec, section 4.3.3). -/
def pqRel (a b : ℚ × Tree) : Prop := a.1 ≤ b.1

instance pqRelDec : DecidableRel pqRel :=
  fun a b => inferInstanceAs (Decidable (a.1 ≤ b.1))

/-- Modelled from the spec (section 4.3.3): from a node, descend the near
child of every Split while pushing the far child keyed by the absolute
margin of the query at that split, and collect the point ids of the leaf
reached. -/
def descend (qv : List ℚ) : Tree → List Nat × List (ℚ × Tree)
  | .leaf ids => (ids, [])
  | .split hp off l r =>
    let m := dot qv hp - off
    if 0 ≤ m then
      let p := descend qv l
      (p.1, (|m|, r) :: p.2)
    else
      let p := descend qv r
      (p.1, (|m|, l) :: p.2)

/-- Point ids below all queue entries. -/
def entriesPoints (pq : List (ℚ × Tree)) : List Nat :=
  (pq.map (fun e => treePoints e.2)).flatten

/-- Total node count below all queue entries. -/
def entriesSize (pq : List (ℚ × Tree)) : Nat :=
  (pq.map (fun e => treeSize e.2)).sum

/-- Modelled from the spec (section 4.3.3): the candidate collection loop.
While the candidate set is below the search budget and the queue is not
exhausted, pop the most promising entry, descend it, add the leaf points to
the candidates and push the far branches back into the queue.  The fuel
bounds the iteration count; callers pass one more than the total node
count, which the loop never exceeds. -/
def searchLoop (qv : List ℚ) (budget : Nat) :
    Nat → List (ℚ × Tree) → List Nat → List Nat
  | 0, _, cands => cands
  | fuel + 1, pq, cands =>
    if budget ≤ cands.length then cands
    else
      match pq with
      | [] => cands
      | e :: rest =>
        let d := descend qv e.2
        searchLoop qv budget fuel
          (d.2.foldr (List.orderedInsert pqRel) rest) (cands ++ d.1)

/-- Modelled from the spec (section 4.3.2): the candidate-examination
budget; a non-positive search_k defaults to n_results times the tree
count. -/
def effective_search_k (sk : Int) (n q : Nat) : Nat :=
  if sk ≤ 0 then n * q else sk.toNat

/-- Number of trees of the built forest, zero when unbuilt. -/
def numTrees (s : Store) : Nat :=
  (s.forest.getD []).length

/-- Ranking key of a candidate id for a query vector: the dot product with
the query and the squared norm, with a zero-norm vector normalized to the
key of cosine zero. -/
def candKey (s : Store) (qv : List ℚ) (x : Nat) : ℚ × ℚ :=
  if dot (vecD s x) (vecD s x) = 0 then (0, 1)
  else (dot qv (vecD s x), dot (vecD s x) (vecD s x))

/-- Ranking comparator of two candidate ids for a query vector, decided in
rational arithmetic.  Ranking by ascending angular distance is ranking by
descending cosine similarity; with the query norm fixed, comparing
p / sqrt(q) terms is decided sign-correctly by comparing p * |p| weighted
by the opposite squared norms (the agreement with the true angular
distance order is proved below).  A zero query vector makes every cosine
equal under the division convention, so ids break the tie.  Equal keys
also fall back to ascending id (spec, section 4.3.4). -/
def rankLEb (s : Store) (qv : List ℚ) (a b : Nat) : Bool :=
  if dot qv qv = 0 then decide (a ≤ b)
  else
    let sa := (candKey s qv a).1 * |(candKey s qv a).1| * (candKey s qv b).2
    let sb := (candKey s qv b).1 * |(candKey s qv b).1| * (candKey s qv a).2
    if sb < sa then true
    else if sa = sb then decide (a ≤ b)
    else false

/-- Propositional form of the ranking comparator. -/
def rankRel (s : Store) (qv : List ℚ) : Nat → Nat → Prop :=
  fun a b => rankLEb s qv a b = true

instance rankRelDec (s : Store) (qv : List ℚ) : DecidableRel (rankRel s qv) :=
  fun a b => inferInstanceAs (Decidable (_ = true))

/-- Drop the excluded id from the candidate list, if one is given. -/
def exclFilter (excl : Option Nat) (l : List Nat) : List Nat :=
  match excl with
  | none => l
  | some e => l.filter (fun j => decide (j ≠ e))

/-- Modelled from the spec (section 4.3): the query pipeline over a built
forest.  Collects up to the effective budget of candidates across all trees
through the shared priority queue, deduplicates, drops the excluded id if
any, ranks by distance with ascending-id tie break, and returns the first
n ids. -/
def query_core_trees (s : Store) (qv : List ℚ) (n : Nat) (sk : Int)
    (excl : Option Nat) (ts : List Tree) : List Nat :=
  ((exclFilter excl
      (searchLoop qv (effective_search_k sk n ts.length)
        (entriesSize (ts.map (fun t => ((0 : ℚ), t))) + 1)
        (ts.map (fun t => ((0 : ℚ), t))) []).dedup).insertionSort
    (rankRel s qv)).take n

/-- Modelled from the spec (section 4.3.1): a query requires a built
forest and fails with NotBuilt otherwise. -/
def query_core (s : Store) (qv : List ℚ) (n : Nat) (sk : Int)
    (excl : Option Nat) : Except Err (List Nat) :=
  match s.forest with
  | none => .error .notBuilt
  | some ts => .ok (query_core_trees s qv n sk excl ts)

/-- Modelled from the spec (section 4.3.1): query by vector. -/
def get_nns_by_vector_ids (s : Store) (v : List ℚ) (n : Nat) (sk : Int) :
    Except Err (List Nat) :=
  query_core s v n sk none

/-- Modelled from the spec (section 4.3.5): query by item runs the same
algorithm on the stored vector of the item and excludes the item itself
from the results. -/
def get_nns_by_item_ids (s : Store) (item n : Nat) (sk : Int) :
    Except Err (List Nat) :=
  if item < get_n_items s then
    query_core s (vecD s item) n sk (some item)
  else .error .outOfRange

/-- Result list of a query, empty on error (the wrapper exposes no error
channel for queries and simply copies nothing). -/
def resultList (r : Except Err (List Nat)) : List Nat :=
  match r with
  | .ok l => l
  | .error _ => []

/-- Modelled from the spec (sections 4.3.4 and 6): the ranked result pairs
of a query by vector, each id paired with its true angular distance from
the query. -/
noncomputable def get_nns_by_vector_pairs (s : Store) (v : List ℚ) (n : Nat)
    (sk : Int) : List (Nat × ℝ) :=
  (resultList (get_nns_by_vector_ids s v n sk)).map
    (fun i => (i, angular v (vecD s i)))

/-- Modelled from the spec (sections 4.3.5 and 6): the ranked result pairs
of a query by item. -/
noncomputable def get_nns_by_item_pairs (s : Store) (item n : Nat)
    (sk : Int) : List (Nat × ℝ) :=
  (resultList (get_nns_by_item_ids s item n sk)).map
    (fun i => (i, angular (vecD s item) (vecD s i)))

/-- Pointwise update of a buffer modelled as a function from slot index to
content. -/
def fupd {α : Type} (f : Nat → α) (i : Nat) (x : α) : Nat → α :=
  fun j => if j = i then x else f j

/-- Embedded from wrapper.cpp (lines 66-70 and 80-84): the copy loop of
annoy_angular_get_nns_by_item and annoy_angular_get_nns_by_vector writes
the i-th id, cast from int32_t to uint32_t, and the i-th distance into the
caller buffers. -/
def copyResults : List (Nat × ℝ) → Nat → (Nat → Nat) → (Nat → ℝ) →
    (Nat → Nat) × (Nat → ℝ)
  | [], _, res, dst => (res, dst)
  | p :: rest, i, res, dst =>
    copyResults rest (i + 1) (fupd res i (p.1 % 2 ^ 32)) (fupd dst i p.2)

/-- Outcome of one wrapper query call: the returned size_t and the two
caller buffers after the copy loop. -/
structure NnsOut where
  count : Nat
  result : Nat → Nat
  distances : Nat → ℝ

/-- Embedded from wrapper.cpp (lines 60-86): both wrapper query entry
points run the copy loop from slot 0 and return the result vector size. -/
def writeNns (rs : List (Nat × ℝ)) (res : Nat → Nat) (dst : Nat → ℝ) :
    NnsOut :=
  ⟨rs.length, (copyResults rs 0 res dst).1, (copyResults rs 0 res dst).2⟩

/-- Embedded from wrapper.cpp (lines 60-72): annoy_angular_get_nns_by_item
obtains the ranked pairs from the engine and copies them into the caller
buffers. -/
noncomputable def annoy_angular_get_nns_by_item (s : Store) (item n : Nat)
    (sk : Int) (res : Nat → Nat) (dst : Nat → ℝ) : NnsOut :=
  writeNns (get_nns_by_item_pairs s item n sk) res dst

/-- Embedded from wrapper.cpp (lines 74-86): annoy_angular_get_nns_by_vector
obtains the ranked pairs from the engine and copies them into the caller
buffers. -/
noncomputable def annoy_angular_get_nns_by_vector (s : Store) (v : List ℚ)
    (n : Nat) (sk : Int) (res : Nat → Nat) (dst : Nat → ℝ) : NnsOut :=
  writeNns (get_nns_by_vector_pairs s v n sk) res dst

/-- Build execution policy of the engine instantiation.  The wrapper
(wrapper.cpp line 8, wrapper.hpp line 6) fixes the policy type parameter of
AnnoyIndex. -/
inductive BuildPolicy where
  | singleThreaded
  | multiThreaded
  deriving DecidableEq, Repr

/-- Embedded from wrapper.cpp line 8 and wrapper.hpp line 6: the typedef
AngularIndex instantiates AnnoyIndexSingleThreadedBuildPolicy. -/
def wrapperBuildPolicy : BuildPolicy := .singleThreaded

/-- Worker threads used during a forest build for a requested thread count.
Under the single-threaded policy the build runs entirely on the calling
thread; under the multi-threaded policy the spec (section 4.2.3) grants up
to the requested count. -/
def build_worker_count (p : BuildPolicy) (nThreads : Int) : Nat :=
  match p with
  | .singleThreaded => 1
  | .multiThreaded => max 1 nThreads.toNat

/-- A built index holding the single one-dimensional zero vector. -/
def zeroStore : Store := (build ⟨1, [[(0 : ℚ)]], none, 0⟩ 1 1).1

/-- A built index holding twelve one-dimensional vectors, large enough
that its tree splits into several leaves. -/
def bigStore : Store :=
  (build ⟨1, (List.range 12).map (fun i => [(i : ℚ)]), none, 0⟩ 1 1).1

/-! Supporting lemmas. -/

theorem dot_comm (u v : List ℚ) : dot u v = dot v u := by
  unfold dot
  rw [List.zipWith_comm_of_comm _ mul_comm]

theorem dot_self_nonneg (v : List ℚ) : 0 ≤ dot v v := by
  unfold dot
  induction v with
  | nil => simp
  | cons x xs ih =>
    simpa [List.zipWith] using add_nonneg (mul_self_nonneg x) ih

theorem angular_comm (u v : List ℚ) : angular u v = angular v u := by
  unfold angular
  rw [dot_comm u v, mul_comm ((dot u u : ℚ) : ℝ) ((dot v v : ℚ) : ℝ)]

theorem angular_self_zero (v : List ℚ) (h : dot v v = 0) :
    angular v v = Real.sqrt 2 := by
  unfold angular
  rw [h]
  norm_num

theorem angular_self (v : List ℚ) (h : dot v v ≠ 0) : angular v v = 0 := by
  unfold angular
  have h0 : (0 : ℝ) ≤ ((dot v v : ℚ) : ℝ) := by
    exact_mod_cast dot_self_nonneg v
  have hne : ((dot v v : ℚ) : ℝ) ≠ 0 := by exact_mod_cast h
  rw [Real.sqrt_mul_self h0, div_self hne]
  norm_num

theorem unbuild_of_forest_none {s : Store} (h : s.forest = none) :
    unbuild s = s := by
  cases s
  simp_all [unbuild]

theorem unflatten_flatten (d : Nat) :
    ∀ vs : List (List ℚ), (∀ v ∈ vs, v.length = d) →
      unflatten d vs.length (flatten vs) = vs := by
  intro vs
  induction vs with
  | nil => intro _; rfl
  | cons v rest ih =>
    intro h
    have hv : v.length = d := h v (by simp)
    have hrest := ih (fun w hw => h w (by simp [hw]))
    show (flatten (v :: rest)).take d ::
      unflatten d rest.length ((flatten (v :: rest)).drop d) = v :: rest
    rw [show flatten (v :: rest) = v ++ flatten rest by simp [flatten], ← hv,
      List.take_left, List.drop_left, hv, hrest]

theorem build_unbuild_of_forest_none (t : Store) (q nt : Int)
    (h : t.forest = none) : unbuild (build t q nt).1 = t := by
  unfold build
  split_ifs with h1 h2
  · exact unbuild_of_forest_none h
  · exact unbuild_of_forest_none h
  · cases t
    simp_all [unbuild]

theorem effective_search_k_of_nonpos {sk : Int} (h : sk ≤ 0) (n q : Nat) :
    effective_search_k sk n q = n * q := by
  simp [effective_search_k, h]

theorem effective_search_k_cast (n q : Nat) :
    effective_search_k ((n * q : Nat) : Int) n q = n * q := by
  unfold effective_search_k
  split_ifs with h
  · have : n * q = 0 := by exact_mod_cast le_antisymm h (Int.ofNat_nonneg _)
    rw [this]
  · exact Int.toNat_natCast _

theorem query_core_trees_search_k_default (s : Store) (v : List ℚ)
    (n : Nat) (sk : Int) (excl : Option Nat) (ts : List Tree)
    (hsk : sk ≤ 0) :
    query_core_trees s v n sk excl ts =
      query_core_trees s v n ((n * ts.length : Nat) : Int) excl ts := by
  unfold query_core_trees
  rw [effective_search_k_of_nonpos hsk, effective_search_k_cast]

theorem query_core_search_k_default (s : Store) (v : List ℚ) (n : Nat)
    (sk : Int) (excl : Option Nat) (hsk : sk ≤ 0) :
    query_core s v n sk excl =
      query_core s v n ((n * numTrees s : Nat) : Int) excl := by
  cases hf : s.forest with
  | none => simp [query_core, hf]
  | some ts =>
    have hq : numTrees s = ts.length := by simp [numTrees, hf]
    rw [hq]
    simp only [query_core, hf]
    rw [query_core_trees_search_k_default s v n sk excl ts hsk]

theorem copyResults_lt :
    ∀ (rs : List (Nat × ℝ)) (k : Nat) (res : Nat → Nat) (dst : Nat → ℝ)
      (j : Nat), j < k →
      (copyResults rs k res dst).1 j = res j ∧
      (copyResults rs k res dst).2 j = dst j := by
  intro rs
  induction rs with
  | nil => intro k res dst j _; exact ⟨rfl, rfl⟩
  | cons p rest ih =>
    intro k res dst j hj
    have hne : j ≠ k := by omega
    simpa [copyResults, fupd, hne] using
      ih (k + 1) (fupd res k (p.1 % 2 ^ 32)) (fupd dst k p.2) j (by omega)

theorem copyResults_ge :
    ∀ (rs : List (Nat × ℝ)) (k : Nat) (res : Nat → Nat) (dst : Nat → ℝ)
      (j : Nat), k + rs.length ≤ j →
      (copyResults rs k res dst).1 j = res j ∧
      (copyResults rs k res dst).2 j = dst j := by
  intro rs
  induction rs with
  | nil => intro k res dst j _; exact ⟨rfl, rfl⟩
  | cons p rest ih =>
    intro k res dst j hj
    simp only [List.length_cons] at hj
    have hne : j ≠ k := by omega
    simpa [copyResults, fupd, hne] using
      ih (k + 1) (fupd res k (p.1 % 2 ^ 32)) (fupd dst k p.2) j (by omega)

theorem copyResults_get :
    ∀ (rs : List (Nat × ℝ)) (k : Nat) (res : Nat → Nat) (dst : Nat → ℝ)
      (i : Nat) (h : i < rs.length),
      (copyResults rs k res dst).1 (k + i) = (rs.get ⟨i, h⟩).1 % 2 ^ 32 ∧
      (copyResults rs k res dst).2 (k + i) = (rs.get ⟨i, h⟩).2 := by
  intro rs
  induction rs with
  | nil => intro k res dst i h; exact absurd h (by simp)
  | cons p rest ih =>
    intro k res dst i h
    cases i with
    | zero =>
      have hlt := copyResults_lt rest (k + 1)
        (fupd res k (p.1 % 2 ^ 32)) (fupd dst k p.2) k (by omega)
      simpa [copyResults, fupd] using hlt
    | succ i =>
      have hi : i < rest.length := by simpa using h
      have hidx : k + (i + 1) = (k + 1) + i := by omega
      have hr := ih (k + 1) (fupd res k (p.1 % 2 ^ 32)) (fupd dst k p.2) i hi
      simpa [copyResults, hidx] using hr

theorem sum_map_const {α : Type} (l : List α) (f : α → Nat) (c : Nat)
    (h : ∀ x ∈ l, f x = c) : (l.map f).sum = c * l.length := by
  induction l with
  | nil => simp
  | cons x xs ih =>
    have hx : f x = c := h x (by simp)
    have hxs := ih (fun y hy => h y (by simp [hy]))
    simp only [List.map_cons, List.sum_cons, List.length_cons, hx, hxs]
    ring

theorem nodup_lt_length_le (l : List Nat) (N : Nat) (hnd : l.Nodup)
    (h : ∀ x ∈ l, x < N) : l.length ≤ N := by
  have hsub : l.toFinset ⊆ Finset.range N := fun x hx =>
    Finset.mem_range.mpr (h x (List.mem_toFinset.mp hx))
  calc l.length = l.toFinset.card := (List.toFinset_card_of_nodup hnd).symm
    _ ≤ (Finset.range N).card := Finset.card_le_card hsub
    _ = N := Finset.card_range N

theorem attemptSplits_perm (vs : List (List ℚ)) (ids : List Nat) :
    ∀ (tries rng : Nat) (hp : List ℚ) (off : ℚ) (l r : List Nat),
      attemptSplits vs ids tries rng = some (hp, off, l, r) →
      (l ++ r).Perm ids := by
  intro tries
  induction tries with
  | zero =>
    intro rng hp off l r h
    exact absurd h (by simp [attemptSplits])
  | succ t ih =>
    intro rng hp off l r h
    simp only [attemptSplits] at h
    split at h
    · simp only [Option.some.injEq, Prod.mk.injEq] at h
      obtain ⟨-, -, h3, h4⟩ := h
      rw [← h3, ← h4]
      exact List.filter_append_perm _ ids
    · exact ih _ hp off l r h

theorem treePoints_buildTreeFuel (vs : List (List ℚ)) :
    ∀ (fuel rng : Nat) (ids : List Nat),
      (treePoints (buildTreeFuel vs fuel rng ids)).Perm ids := by
  intro fuel
  induction fuel with
  | zero => intro rng ids; exact .refl _
  | succ fuel ih =>
    intro rng ids
    simp only [buildTreeFuel]
    split
    · exact .refl _
    · split
      · rename_i r heq
        simp only [treePoints]
        exact ((ih _ r.2.2.1).append (ih _ r.2.2.2)).trans
          (attemptSplits_perm vs ids splitRetries rng r.1 r.2.1 r.2.2.1
            r.2.2.2 (by simpa using heq))
      · simp only [treePoints]
        have htd : (ids.take (ids.length / 2) ++
            ids.drop (ids.length / 2)).Perm ids := by
          rw [List.take_append_drop]
        exact ((ih _ _).append (ih _ _)).trans htd

theorem foldr_orderedInsert_perm :
    ∀ xs rest : List (ℚ × Tree),
      (xs.foldr (List.orderedInsert pqRel) rest).Perm (xs ++ rest) := by
  intro xs
  induction xs with
  | nil => intro rest; exact .refl _
  | cons x xs ih =>
    intro rest
    exact (List.perm_orderedInsert pqRel x _).trans ((ih rest).cons x)

theorem entriesPoints_nil : entriesPoints [] = [] := rfl

theorem entriesPoints_cons (e : ℚ × Tree) (pq : List (ℚ × Tree)) :
    entriesPoints (e :: pq) = treePoints e.2 ++ entriesPoints pq := by
  simp [entriesPoints]

theorem entriesPoints_append (a b : List (ℚ × Tree)) :
    entriesPoints (a ++ b) = entriesPoints a ++ entriesPoints b := by
  simp [entriesPoints]

theorem entriesSize_cons (e : ℚ × Tree) (pq : List (ℚ × Tree)) :
    entriesSize (e :: pq) = treeSize e.2 + entriesSize pq := by
  simp [entriesSize]

theorem entriesSize_append (a b : List (ℚ × Tree)) :
    entriesSize (a ++ b) = entriesSize a + entriesSize b := by
  simp [entriesSize]

theorem entriesPoints_perm {a b : List (ℚ × Tree)} (h : a.Perm b) :
    (entriesPoints a).Perm (entriesPoints b) :=
  (h.map _).flatten

theorem entriesSize_perm {a b : List (ℚ × Tree)} (h : a.Perm b) :
    entriesSize a = entriesSize b :=
  (h.map _).sum_eq

theorem descend_points (qv : List ℚ) :
    ∀ t : Tree,
      ((descend qv t).1 ++ entriesPoints (descend qv t).2).Perm
        (treePoints t) := by
  intro t
  induction t with
  | leaf ids => simp [descend, entriesPoints, treePoints]
  | split hp off l r ihl ihr =>
    simp only [descend]
    split
    · rw [show treePoints (.split hp off l r) = treePoints l ++ treePoints r
        from rfl, entriesPoints_cons]
      have hstep : ((descend qv l).1 ++
          (entriesPoints (descend qv l).2 ++ treePoints r)).Perm
          (treePoints l ++ treePoints r) := by
        rw [← List.append_assoc]
        exact ihl.append (.refl _)
      exact ((List.Perm.append_left _
        (@List.perm_append_comm _ (treePoints r)
          (entriesPoints (descend qv l).2)))).trans hstep
    · rw [show treePoints (.split hp off l r) = treePoints l ++ treePoints r
        from rfl, entriesPoints_cons]
      have hstep : ((descend qv r).1 ++
          (entriesPoints (descend qv r).2 ++ treePoints l)).Perm
          (treePoints l ++ treePoints r) := by
        rw [← List.append_assoc]
        exact (ihr.append (.refl _)).trans List.perm_append_comm
      exact ((List.Perm.append_left _
        (@List.perm_append_comm _ (treePoints l)
          (entriesPoints (descend qv r).2)))).trans hstep

theorem descend_size (qv : List ℚ) :
    ∀ t : Tree, entriesSize (descend qv t).2 < treeSize t := by
  intro t
  induction t with
  | leaf ids => simp [descend, entriesSize, treeSize]
  | split hp off l r ihl ihr =>
    simp only [descend]
    split
    · rw [entriesSize_cons]
      simp only [treeSize]
      omega
    · rw [entriesSize_cons]
      simp only [treeSize]
      omega

theorem searchLoop_exhausts (qv : List ℚ) (budget : Nat) :
    ∀ (fuel : Nat) (pq : List (ℚ × Tree)) (cands : List Nat),
      entriesSize pq < fuel →
      cands.length + (entriesPoints pq).length < budget →
      (searchLoop qv budget fuel pq cands).Perm
        (cands ++ entriesPoints pq) := by
  intro fuel
  induction fuel with
  | zero => intro pq cands h1 _; exact absurd h1 (Nat.not_lt_zero _)
  | succ fuel ih =>
    intro pq cands h1 h2
    simp only [searchLoop]
    rw [if_neg (by omega)]
    cases pq with
    | nil => simp [entriesPoints]
    | cons e rest =>
      show (searchLoop qv budget fuel
          ((descend qv e.2).2.foldr (List.orderedInsert pqRel) rest)
          (cands ++ (descend qv e.2).1)).Perm
        (cands ++ entriesPoints (e :: rest))
      have hpts := descend_points qv e.2
      have hsz := descend_size qv e.2
      have hperm := foldr_orderedInsert_perm (descend qv e.2).2 rest
      have hEPf : (entriesPoints
          ((descend qv e.2).2.foldr (List.orderedInsert pqRel) rest)).Perm
          (entriesPoints (descend qv e.2).2 ++ entriesPoints rest) := by
        rw [← entriesPoints_append]
        exact entriesPoints_perm hperm
      have hsz' : entriesSize
          ((descend qv e.2).2.foldr (List.orderedInsert pqRel) rest) <
          fuel := by
        rw [entriesSize_perm hperm, entriesSize_append]
        rw [entriesSize_cons] at h1
        omega
      have hlen2 : (descend qv e.2).1.length +
          (entriesPoints (descend qv e.2).2).length =
          (treePoints e.2).length := by
        simpa [List.length_append] using hpts.length_eq
    -- candidate count is conserved by one loop step
      have hlen : (cands ++ (descend qv e.2).1).length +
          (entriesPoints
            ((descend qv e.2).2.foldr (List.orderedInsert pqRel)
              rest)).length < budget := by
        rw [hEPf.length_eq, List.length_append, List.length_append]
        rw [entriesPoints_cons, List.length_append] at h2
        omega
      have hstep := ih _ (cands ++ (descend qv e.2).1) hsz' hlen
      refine hstep.trans ?_
      rw [entriesPoints_cons, List.append_assoc]
      refine List.Perm.append_left cands ?_
      have htail : ((descend qv e.2).1 ++
          (entriesPoints (descend qv e.2).2 ++ entriesPoints rest)).Perm
          (treePoints e.2 ++ entriesPoints rest) := by
        rw [← List.append_assoc]
        exact hpts.append (.refl _)
      exact (List.Perm.append_left _ hEPf).trans htail

/-! Faithfulness of the rational ranking comparator: rankLEb orders
candidate ids exactly by ascending true angular distance from the query,
with ascending-id tie break, whenever the query vector is nonzero. -/

theorem dot_nil_right (u : List ℚ) : dot u [] = 0 := by
  cases u <;> simp [dot]

theorem dot_cons_cons (x y : ℚ) (xs ys : List ℚ) :
    dot (x :: xs) (y :: ys) = x * y + dot xs ys := by
  simp [dot]

theorem dot_sq_le (u : List ℚ) :
    ∀ v : List ℚ, dot u v ^ 2 ≤ dot u u * dot v v := by
  induction u with
  | nil => intro v; simp [dot]
  | cons x xs ih =>
    intro v
    cases v with
    | nil => simp [dot_nil_right]
    | cons y ys =>
      have hr := ih ys
      have ha := dot_self_nonneg xs
      have hb := dot_self_nonneg ys
      rw [dot_cons_cons, dot_cons_cons, dot_cons_cons]
      rcases eq_or_lt_of_le hb with hb0 | hbpos
      · have h1 : dot xs ys ^ 2 ≤ 0 := by
          rw [← hb0, mul_zero] at hr
          exact hr
        have hr0 : dot xs ys = 0 :=
          sq_eq_zero_iff.mp (le_antisymm h1 (sq_nonneg _))
        rw [hr0, ← hb0]
        nlinarith [mul_nonneg ha (sq_nonneg y)]
      · nlinarith [sq_nonneg (x * dot ys ys - y * dot xs ys),
          mul_nonneg (add_nonneg (sq_nonneg y) hb) (sub_nonneg.mpr hr)]

theorem mul_abs_strictMono : StrictMono (fun x : ℝ => x * |x|) := by
  intro x y hxy
  show x * |x| < y * |y|
  rcases le_or_lt 0 x with hx | hx
  · have hy : 0 < y := lt_of_le_of_lt hx hxy
    rw [abs_of_nonneg hx, abs_of_pos hy]
    nlinarith
  · rcases le_or_lt 0 y with hy | hy
    · have h1 : x * |x| < 0 := by
        rw [abs_of_neg hx]
        nlinarith
      have h2 : 0 ≤ y * |y| := by
        rw [abs_of_nonneg hy]
        positivity
      linarith
    · rw [abs_of_neg hx, abs_of_neg hy]
      nlinarith

theorem mul_abs_sqrt (p q : ℝ) (hq : 0 ≤ q) :
    (p * Real.sqrt q) * |p * Real.sqrt q| = p * |p| * q := by
  rw [abs_mul, abs_of_nonneg (Real.sqrt_nonneg q)]
  calc (p * Real.sqrt q) * (|p| * Real.sqrt q)
      = p * |p| * (Real.sqrt q * Real.sqrt q) := by ring
    _ = p * |p| * q := by rw [Real.mul_self_sqrt hq]

theorem mul_sqrt_lt_iff_surrogate (p1 q1 p2 q2 : ℝ) (h1 : 0 ≤ q1)
    (h2 : 0 ≤ q2) :
    p1 * Real.sqrt q2 < p2 * Real.sqrt q1 ↔
      p1 * |p1| * q2 < p2 * |p2| * q1 := by
  rw [← mul_abs_sqrt p1 q2 h2, ← mul_abs_sqrt p2 q1 h1]
  exact mul_abs_strictMono.lt_iff_lt.symm

theorem div_sqrt_lt_iff (P p1 q1 p2 q2 : ℝ) (hP : 0 < P) (h1 : 0 < q1)
    (h2 : 0 < q2) :
    p1 / (Real.sqrt P * Real.sqrt q1) < p2 / (Real.sqrt P * Real.sqrt q2) ↔
      p1 * |p1| * q2 < p2 * |p2| * q1 := by
  have hsP : 0 < Real.sqrt P := Real.sqrt_pos.mpr hP
  have hs1 : 0 < Real.sqrt q1 := Real.sqrt_pos.mpr h1
  have hs2 : 0 < Real.sqrt q2 := Real.sqrt_pos.mpr h2
  rw [div_lt_div_iff (by positivity) (by positivity)]
  rw [← mul_sqrt_lt_iff_surrogate p1 q1 p2 q2 h1.le h2.le]
  constructor
  · intro h
    have hh : Real.sqrt P * (p1 * Real.sqrt q2) <
        Real.sqrt P * (p2 * Real.sqrt q1) := by
      calc Real.sqrt P * (p1 * Real.sqrt q2)
          = p1 * (Real.sqrt P * Real.sqrt q2) := by ring
        _ < p2 * (Real.sqrt P * Real.sqrt q1) := h
        _ = Real.sqrt P * (p2 * Real.sqrt q1) := by ring
    exact (mul_lt_mul_left hsP).mp hh
  · intro h
    calc p1 * (Real.sqrt P * Real.sqrt q2)
        = Real.sqrt P * (p1 * Real.sqrt q2) := by ring
      _ < Real.sqrt P * (p2 * Real.sqrt q1) := (mul_lt_mul_left hsP).mpr h
      _ = p2 * (Real.sqrt P * Real.sqrt q1) := by ring

theorem div_sqrt_eq_iff (P p1 q1 p2 q2 : ℝ) (hP : 0 < P) (h1 : 0 < q1)
    (h2 : 0 < q2) :
    p1 / (Real.sqrt P * Real.sqrt q1) = p2 / (Real.sqrt P * Real.sqrt q2) ↔
      p1 * |p1| * q2 = p2 * |p2| * q1 := by
  have hsP : 0 < Real.sqrt P := Real.sqrt_pos.mpr hP
  have hs1 : 0 < Real.sqrt q1 := Real.sqrt_pos.mpr h1
  have hs2 : 0 < Real.sqrt q2 := Real.sqrt_pos.mpr h2
  rw [div_eq_div_iff (by positivity) (by positivity)]
  constructor
  · intro h
    have h' : p1 * Real.sqrt q2 = p2 * Real.sqrt q1 := by
      apply mul_left_cancel₀ (ne_of_gt hsP)
      calc Real.sqrt P * (p1 * Real.sqrt q2)
          = p1 * (Real.sqrt P * Real.sqrt q2) := by ring
        _ = p2 * (Real.sqrt P * Real.sqrt q1) := h
        _ = Real.sqrt P * (p2 * Real.sqrt q1) := by ring
    have h2' := congrArg (fun z : ℝ => z * |z|) h'
    simpa [mul_abs_sqrt p1 q2 h2.le, mul_abs_sqrt p2 q1 h1.le] using h2'
  · intro h
    have h' : p1 * Real.sqrt q2 = p2 * Real.sqrt q1 := by
      apply mul_abs_strictMono.injective
      show (p1 * Real.sqrt q2) * |p1 * Real.sqrt q2| =
        (p2 * Real.sqrt q1) * |p2 * Real.sqrt q1|
      rw [mul_abs_sqrt p1 q2 h2.le, mul_abs_sqrt p2 q1 h1.le]
      exact h
    calc p1 * (Real.sqrt P * Real.sqrt q2)
        = Real.sqrt P * (p1 * Real.sqrt q2) := by ring
      _ = Real.sqrt P * (p2 * Real.sqrt q1) := by rw [h']
      _ = p2 * (Real.sqrt P * Real.sqrt q1) := by ring

theorem candKey_snd_pos (s : Store) (qv : List ℚ) (x : Nat) :
    0 < (candKey s qv x).2 := by
  unfold candKey
  split_ifs with h
  · norm_num
  · exact lt_of_le_of_ne (dot_self_nonneg _) (Ne.symm h)

theorem cos_eq_candKey (s : Store) (qv : List ℚ) (x : Nat) :
    ((dot qv (vecD s x) : ℚ) : ℝ) /
      Real.sqrt (((dot qv qv : ℚ) : ℝ) *
        ((dot (vecD s x) (vecD s x) : ℚ) : ℝ)) =
    (((candKey s qv x).1 : ℚ) : ℝ) /
      (Real.sqrt ((dot qv qv : ℚ) : ℝ) *
        Real.sqrt (((candKey s qv x).2 : ℚ) : ℝ)) := by
  have hP0 : (0 : ℝ) ≤ ((dot qv qv : ℚ) : ℝ) := by
    exact_mod_cast dot_self_nonneg qv
  unfold candKey
  split_ifs with h
  · have hcs := dot_sq_le qv (vecD s x)
    rw [h, mul_zero] at hcs
    have hp0 : dot qv (vecD s x) = 0 :=
      sq_eq_zero_iff.mp (le_antisymm hcs (sq_nonneg _))
    simp [hp0, h]
  · rw [Real.sqrt_mul hP0]

theorem cos_abs_le_one (u v : List ℚ) :
    |((dot u v : ℚ) : ℝ) /
      Real.sqrt (((dot u u : ℚ) : ℝ) * ((dot v v : ℚ) : ℝ))| ≤ 1 := by
  have hy0 : (0 : ℝ) ≤ ((dot u u : ℚ) : ℝ) * ((dot v v : ℚ) : ℝ) :=
    mul_nonneg (by exact_mod_cast dot_self_nonneg u)
      (by exact_mod_cast dot_self_nonneg v)
  have hcs : ((dot u v : ℚ) : ℝ) ^ 2 ≤
      ((dot u u : ℚ) : ℝ) * ((dot v v : ℚ) : ℝ) := by
    exact_mod_cast dot_sq_le u v
  rcases eq_or_lt_of_le
      (Real.sqrt_nonneg (((dot u u : ℚ) : ℝ) * ((dot v v : ℚ) : ℝ)))
    with h0 | hpos
  · rw [← h0, div_zero, abs_zero]
    norm_num
  · rw [abs_div, abs_of_pos hpos, div_le_one hpos,
      Real.le_sqrt (abs_nonneg _) hy0, sq_abs]
    exact hcs

/-- The rational comparator of the spec-modelled ranking agrees exactly
with ordering by ascending true angular distance from a nonzero query
vector, ties broken by ascending id. -/
theorem rankLEb_eq_true_iff (s : Store) (qv : List ℚ) (a b : Nat)
    (hq : dot qv qv ≠ 0) :
    rankLEb s qv a b = true ↔
      (angular qv (vecD s a) < angular qv (vecD s b) ∨
        (angular qv (vecD s a) = angular qv (vecD s b) ∧ a ≤ b)) := by
  have hP : (0 : ℝ) < ((dot qv qv : ℚ) : ℝ) := by
    have h1 : (0 : ℚ) < dot qv qv :=
      lt_of_le_of_ne (dot_self_nonneg qv) (Ne.symm hq)
    exact_mod_cast h1
  set ca : ℝ := ((dot qv (vecD s a) : ℚ) : ℝ) /
    Real.sqrt (((dot qv qv : ℚ) : ℝ) *
      ((dot (vecD s a) (vecD s a) : ℚ) : ℝ)) with hca
  set cb : ℝ := ((dot qv (vecD s b) : ℚ) : ℝ) /
    Real.sqrt (((dot qv qv : ℚ) : ℝ) *
      ((dot (vecD s b) (vecD s b) : ℚ) : ℝ)) with hcb
  have hangA : angular qv (vecD s a) = Real.sqrt (2 - 2 * ca) := by
    rw [hca]; rfl
  have hangB : angular qv (vecD s b) = Real.sqrt (2 - 2 * cb) := by
    rw [hcb]; rfl
  have hbndA : |ca| ≤ 1 := by rw [hca]; exact cos_abs_le_one qv (vecD s a)
  have hbndB : |cb| ≤ 1 := by rw [hcb]; exact cos_abs_le_one qv (vecD s b)
  have hA0 : (0 : ℝ) ≤ 2 - 2 * ca := by
    have := (abs_le.mp hbndA).2
    linarith
  have hB0 : (0 : ℝ) ≤ 2 - 2 * cb := by
    have := (abs_le.mp hbndB).2
    linarith
  have hqa := candKey_snd_pos s qv a
  have hqb := candKey_snd_pos s qv b
  have hqa' : (0 : ℝ) < (((candKey s qv a).2 : ℚ) : ℝ) := by exact_mod_cast hqa
  have hqb' : (0 : ℝ) < (((candKey s qv b).2 : ℚ) : ℝ) := by exact_mod_cast hqb
  have hlt : (angular qv (vecD s a) < angular qv (vecD s b)) ↔ cb < ca := by
    rw [hangA, hangB, Real.sqrt_lt_sqrt_iff hA0]
    constructor <;> intro h <;> linarith
  have heq :
      (angular qv (vecD s a) = angular qv (vecD s b)) ↔ ca = cb := by
    rw [hangA, hangB, Real.sqrt_inj hA0 hB0]
    constructor <;> intro h <;> linarith
  have hsurrlt : cb < ca ↔
      (candKey s qv b).1 * |(candKey s qv b).1| * (candKey s qv a).2 <
        (candKey s qv a).1 * |(candKey s qv a).1| * (candKey s qv b).2 := by
    rw [hca, hcb, cos_eq_candKey s qv a, cos_eq_candKey s qv b,
      div_sqrt_lt_iff _ _ _ _ _ hP hqb' hqa']
    constructor <;> intro h <;> exact_mod_cast h
  have hsurreq : ca = cb ↔
      (candKey s qv a).1 * |(candKey s qv a).1| * (candKey s qv b).2 =
        (candKey s qv b).1 * |(candKey s qv b).1| * (candKey s qv a).2 := by
    rw [hca, hcb, cos_eq_candKey s qv a, cos_eq_candKey s qv b,
      div_sqrt_eq_iff _ _ _ _ _ hP hqa' hqb']
    constructor <;> intro h <;> exact_mod_cast h
  rw [hlt, heq, hsurrlt, hsurreq]
  simp only [rankLEb, if_neg hq]
  split_ifs with h1 h2
  · simp [h1]
  · simp [h1, h2]
  · simp [h1, h2]

theorem rankLEb_iff_div (s : Store) (qv : List ℚ) (a b : Nat)
    (hq : dot qv qv ≠ 0) :
    rankLEb s qv a b = true ↔
      ((candKey s qv b).1 * |(candKey s qv b).1| / (candKey s qv b).2 <
          (candKey s qv a).1 * |(candKey s qv a).1| / (candKey s qv a).2 ∨
        ((candKey s qv a).1 * |(candKey s qv a).1| / (candKey s qv a).2 =
          (candKey s qv b).1 * |(candKey s qv b).1| / (candKey s qv b).2 ∧
          a ≤ b)) := by
  have hqa := candKey_snd_pos s qv a
  have hqb := candKey_snd_pos s qv b
  rw [div_lt_div_iff hqb hqa, div_eq_div_iff hqa.ne.symm hqb.ne.symm]
  simp only [rankLEb, if_neg hq]
  split_ifs with h1 h2
  · simp [h1]
  · simp [h1, h2]
  · simp [h1, h2]

theorem rankLEb_total (s : Store) (qv : List ℚ) (a b : Nat) :
    rankLEb s qv a b = true ∨ rankLEb s qv b a = true := by
  by_cases hq : dot qv qv = 0
  · simp only [rankLEb, if_pos hq, decide_eq_true_eq]
    omega
  · rw [rankLEb_iff_div s qv a b hq, rankLEb_iff_div s qv b a hq]
    rcases lt_trichotomy
        ((candKey s qv a).1 * |(candKey s qv a).1| / (candKey s qv a).2)
        ((candKey s qv b).1 * |(candKey s qv b).1| / (candKey s qv b).2)
      with h | h | h
    · exact Or.inr (Or.inl h)
    · rcases le_total a b with hab | hba
      · exact Or.inl (Or.inr ⟨h, hab⟩)
      · exact Or.inr (Or.inr ⟨h.symm, hba⟩)
    · exact Or.inl (Or.inl h)

theorem rankLEb_trans (s : Store) (qv : List ℚ) (a b c : Nat) :
    rankLEb s qv a b = true → rankLEb s qv b c = true →
    rankLEb s qv a c = true := by
  by_cases hq : dot qv qv = 0
  · simp only [rankLEb, if_pos hq, decide_eq_true_eq]
    omega
  · rw [rankLEb_iff_div s qv a b hq, rankLEb_iff_div s qv b c hq,
      rankLEb_iff_div s qv a c hq]
    intro h1 h2
    rcases h1 with h1 | ⟨h1e, h1le⟩ <;> rcases h2 with h2 | ⟨h2e, h2le⟩
    · exact Or.inl (h2.trans h1)
    · exact Or.inl (by rw [← h2e]; exact h1)
    · exact Or.inl (by rw [h1e]; exact h2)
    · exact Or.inr ⟨h1e.trans h2e, le_trans h1le h2le⟩

instance rankRelTotal (s : Store) (qv : List ℚ) :
    IsTotal Nat (rankRel s qv) :=
  ⟨fun a b => rankLEb_total s qv a b⟩

instance rankRelTrans (s : Store) (qv : List ℚ) :
    IsTrans Nat (rankRel s qv) :=
  ⟨fun a b c => rankLEb_trans s qv a b c⟩

theorem query_core_trees_sorted (s : Store) (qv : List ℚ) (n : Nat)
    (sk : Int) (excl : Option Nat) (ts : List Tree) :
    List.Sorted (rankRel s qv) (query_core_trees s qv n sk excl ts) := by
  unfold query_core_trees
  exact List.Pairwise.sublist (List.take_sublist n _)
    (List.sorted_insertionSort (rankRel s qv) _)

/-- The id list returned by the spec-modelled query pipeline is ranked by
ascending true angular distance from a nonzero query vector, ties broken
by ascending id (spec, section 4.3.4). -/
theorem query_ranked_by_angular (s : Store) (qv : List ℚ) (n : Nat)
    (sk : Int) (excl : Option Nat) (ts : List Tree)
    (hq : dot qv qv ≠ 0) :
    List.Pairwise
      (fun a b => angular qv (vecD s a) < angular qv (vecD s b) ∨
        (angular qv (vecD s a) = angular qv (vecD s b) ∧ a ≤ b))
      (query_core_trees s qv n sk excl ts) :=
  List.Pairwise.imp (fun hab => (rankLEb_eq_true_iff s qv _ _ hq).mp hab)
    (query_core_trees_sorted s qv n sk excl ts)

theorem add_item_preserves_wf (s : Store) (ih : Int) (w : List ℚ)
    (h : ∀ v ∈ s.vectors, v.length = s.dim) :
    ∀ v ∈ (add_item s ih w).1.vectors, v.length = (add_item s ih w).1.dim := by
  unfold add_item
  split_ifs with h1 h2
  · exact h
  · exact h
  · intro v hv
    rcases List.mem_append.mp hv with hv | hv
    · exact h v hv
    · rw [List.mem_singleton.mp hv]
      show w.length = s.dim
      omega

/-! Claim theorems. -/

/-- C4: add_item with a vector whose length differs from the index
dimension fails with DimensionMismatch and leaves the item count
unchanged. -/
theorem add_item_dimension_mismatch (s : Store) (ih : Int) (w : List ℚ)
    (h : w.length ≠ s.dim) :
    (add_item s ih w).2 = some Err.dimensionMismatch ∧
    get_n_items (add_item s ih w).1 = get_n_items s := by
  simp [add_item, h]

/-- Witness for C4 at a concrete index and vector. -/
theorem add_item_dimension_mismatch_witness :
    (add_item (create 2) 0 [(1 : ℚ)]).2 = some Err.dimensionMismatch ∧
    get_n_items (add_item (create 2) 0 [(1 : ℚ)]).1 =
      get_n_items (create 2) :=
  add_item_dimension_mismatch (create 2) 0 [(1 : ℚ)] (by decide)

/-- C5: get_distance fails with OutOfRange when either id is not a stored
point id, and on valid ids it is the pure angular-distance function of the
two stored vectors, independent of all non-vector state. -/
theorem get_distance_out_of_range_and_pure (s : Store) (i j : Nat) :
    (¬(i < get_n_items s ∧ j < get_n_items s) →
      get_distance s i j = .error Err.outOfRange) ∧
    (i < get_n_items s → j < get_n_items s →
      get_distance s i j = .ok (angular (vecD s i) (vecD s j))) ∧
    (∀ t : Store, t.vectors = s.vectors →
      get_distance t i j = get_distance s i j) := by
  refine ⟨fun h => by simp [get_distance, h],
    fun hi hj => by simp [get_distance, hi, hj],
    fun t ht => ?_⟩
  simp [get_distance, get_n_items, vecD, ht]

/-- Witness for C5 at a concrete index: an invalid pair errors, a valid
pair yields the angular distance of the stored vectors. -/
theorem get_distance_out_of_range_and_pure_witness :
    get_distance ⟨1, [[1], [2]], none, 0⟩ 0 5 = .error Err.outOfRange ∧
    get_distance ⟨1, [[1], [2]], none, 0⟩ 0 1 =
      .ok (angular (vecD ⟨1, [[1], [2]], none, 0⟩ 0)
        (vecD ⟨1, [[1], [2]], none, 0⟩ 1)) :=
  ⟨(get_distance_out_of_range_and_pure ⟨1, [[1], [2]], none, 0⟩ 0 5).1
      (by decide),
    (get_distance_out_of_range_and_pure ⟨1, [[1], [2]], none, 0⟩ 0 1).2.1
      (by decide) (by decide)⟩

/-- C3: a non-positive search_k makes the effective candidate budget
n_results times the tree count, and both query entry points behave exactly
as if that default had been passed. -/
theorem nonpositive_search_k_default (s : Store) (v : List ℚ)
    (item n : Nat) (sk : Int) (hsk : sk ≤ 0) :
    effective_search_k sk n (numTrees s) = n * numTrees s ∧
    get_nns_by_vector_ids s v n sk =
      get_nns_by_vector_ids s v n ((n * numTrees s : Nat) : Int) ∧
    get_nns_by_item_ids s item n sk =
      get_nns_by_item_ids s item n ((n * numTrees s : Nat) : Int) := by
  refine ⟨effective_search_k_of_nonpos hsk n (numTrees s),
    query_core_search_k_default s v n sk none hsk, ?_⟩
  unfold get_nns_by_item_ids
  split_ifs with h
  · exact query_core_search_k_default s (vecD s item) n sk (some item) hsk
  · rfl

/-- Witness for C3 at a concrete index and search_k = -1. -/
theorem nonpositive_search_k_default_witness :
    effective_search_k (-1) 3 (numTrees ⟨1, [[1], [2]], none, 0⟩) =
      3 * numTrees ⟨1, [[1], [2]], none, 0⟩ ∧
    get_nns_by_vector_ids ⟨1, [[1], [2]], none, 0⟩ [5] 3 (-1) =
      get_nns_by_vector_ids ⟨1, [[1], [2]], none, 0⟩ [5] 3
        ((3 * numTrees ⟨1, [[1], [2]], none, 0⟩ : Nat) : Int) ∧
    get_nns_by_item_ids ⟨1, [[1], [2]], none, 0⟩ 0 3 (-1) =
      get_nns_by_item_ids ⟨1, [[1], [2]], none, 0⟩ 0 3
        ((3 * numTrees ⟨1, [[1], [2]], none, 0⟩ : Nat) : Int) :=
  nonpositive_search_k_default ⟨1, [[1], [2]], none, 0⟩ [5] 0 3 (-1)
    (by decide)

/-- C8: on an unbuilt store, unbuild after build followed by a rebuild with
the same seed, tree count and thread count reproduces the build result
exactly; the build procedure is a deterministic function of the stored
vectors, the seed and the tree count. -/
theorem unbuild_build_deterministic (s : Store) (x : Nat) (q nt : Int)
    (h : s.forest = none) :
    build (unbuild (build (set_seed s x) q nt).1) q nt =
      build (set_seed s x) q nt := by
  have h1 : (set_seed s x).forest = none := by simp [set_seed, h]
  rw [build_unbuild_of_forest_none (set_seed s x) q nt h1]

/-- Witness for C8 at a concrete unbuilt store. -/
theorem unbuild_build_deterministic_witness :
    build (unbuild (build (set_seed ⟨1, [[1], [2]], none, 0⟩ 7) 1 1).1) 1 1 =
      build (set_seed ⟨1, [[1], [2]], none, 0⟩ 7) 1 1 :=
  unbuild_build_deterministic ⟨1, [[1], [2]], none, 0⟩ 7 1 1 rfl

/-- Counterexample for C9: under the build policy instantiated by the
wrapper, a build requested with 4 threads does not run on more than one
worker thread. -/
theorem build_parallelism_cx :
    ¬ (1 < build_worker_count wrapperBuildPolicy 4) := by
  decide

/-- C9 as amended: the wrapper instantiates the single-threaded build
policy, so the forest build runs on exactly one worker thread for every
requested thread count, and the thread-count argument has no effect on the
build result. -/
theorem build_single_threaded :
    (∀ nt : Int, build_worker_count wrapperBuildPolicy nt = 1) ∧
    (∀ (s : Store) (q nt nt' : Int), build s q nt = build s q nt') :=
  ⟨fun _ => rfl, fun _ _ _ _ => rfl⟩

/-- C2: saving a store and loading the image into a fresh handle of the
same dimension succeeds, reproduces the item count, and reproduces the
stored vector of every point id. -/
theorem save_load_roundtrip (s : Store)
    (hWF : ∀ v ∈ s.vectors, v.length = s.dim) (hb : s.forest.isSome) :
    (load (create s.dim) (save s)).2 = none ∧
    get_n_items (load (create s.dim) (save s)).1 = get_n_items s ∧
    ∀ i, i < get_n_items s →
      get_item (load (create s.dim) (save s)).1 i = get_item s i := by
  have hcond : (save s).dim = (create s.dim).dim ∧
      (save s).metric = metricTagAngular ∧
      (save s).version = formatVersion := ⟨rfl, rfl, rfl⟩
  have hload : load (create s.dim) (save s) =
      ({ create s.dim with
          vectors := unflatten (save s).dim (save s).count (save s).data,
          forest := if (save s).treeCount = 0 then none
            else some (save s).trees }, none) := by
    unfold load
    rw [if_pos hcond]
  have hv : (load (create s.dim) (save s)).1.vectors = s.vectors := by
    rw [hload]
    exact unflatten_flatten s.dim s.vectors hWF
  refine ⟨by rw [hload], ?_, ?_⟩
  · simp [get_n_items, hv]
  · intro i _
    simp [get_item, hv]

/-- Witness for C2 at a concrete built store. -/
theorem save_load_roundtrip_witness :
    (load (create (build ⟨1, [[1], [2]], none, 0⟩ 1 1).1.dim)
        (save (build ⟨1, [[1], [2]], none, 0⟩ 1 1).1)).2 = none ∧
    get_n_items (load (create (build ⟨1, [[1], [2]], none, 0⟩ 1 1).1.dim)
        (save (build ⟨1, [[1], [2]], none, 0⟩ 1 1).1)).1 =
      get_n_items (build ⟨1, [[1], [2]], none, 0⟩ 1 1).1 ∧
    ∀ i, i < get_n_items (build ⟨1, [[1], [2]], none, 0⟩ 1 1).1 →
      get_item (load (create (build ⟨1, [[1], [2]], none, 0⟩ 1 1).1.dim)
          (save (build ⟨1, [[1], [2]], none, 0⟩ 1 1).1)).1 i =
        get_item (build ⟨1, [[1], [2]], none, 0⟩ 1 1).1 i :=
  save_load_roundtrip (build ⟨1, [[1], [2]], none, 0⟩ 1 1).1
    (by decide) (by decide)

/-- C10: the wrapper copy loop returns exactly the number of pairs it
wrote, writes the i-th id (cast to uint32) and the i-th distance of the
engine result into slot i of the caller buffers, leaves every slot beyond
that count untouched, and both wrapper query entry points are this loop
applied to the ranked engine pairs. -/
theorem write_nns_buffer_exact (rs : List (Nat × ℝ)) (res : Nat → Nat)
    (dst : Nat → ℝ) :
    (writeNns rs res dst).count = rs.length ∧
    (∀ i (h : i < rs.length),
      (writeNns rs res dst).result i = (rs.get ⟨i, h⟩).1 % 2 ^ 32 ∧
      (writeNns rs res dst).distances i = (rs.get ⟨i, h⟩).2) ∧
    (∀ i, rs.length ≤ i →
      (writeNns rs res dst).result i = res i ∧
      (writeNns rs res dst).distances i = dst i) ∧
    (∀ (s : Store) (item n : Nat) (sk : Int),
      annoy_angular_get_nns_by_item s item n sk res dst =
        writeNns (get_nns_by_item_pairs s item n sk) res dst) ∧
    (∀ (s : Store) (v : List ℚ) (n : Nat) (sk : Int),
      annoy_angular_get_nns_by_vector s v n sk res dst =
        writeNns (get_nns_by_vector_pairs s v n sk) res dst) := by
  refine ⟨rfl, fun i h => ?_, fun i h => ?_, fun _ _ _ _ => rfl,
    fun _ _ _ _ => rfl⟩
  · simpa using copyResults_get rs 0 res dst i h
  · exact copyResults_ge rs 0 res dst i (by simpa using h)

/-- Witness for C10 at a concrete result list and fresh buffers. -/
theorem write_nns_buffer_exact_witness :
    (writeNns [((5 : Nat), (2 : ℝ))] (fun _ => 0) (fun _ => 0)).count = 1 ∧
    (writeNns [((5 : Nat), (2 : ℝ))] (fun _ => 0) (fun _ => 0)).result 0 =
      5 ∧
    (writeNns [((5 : Nat), (2 : ℝ))] (fun _ => 0) (fun _ => 0)).distances 0 =
      2 ∧
    (writeNns [((5 : Nat), (2 : ℝ))] (fun _ => 0) (fun _ => 0)).result 3 =
      0 := by
  obtain ⟨h1, h2, h3, -, -⟩ :=
    write_nns_buffer_exact [((5 : Nat), (2 : ℝ))] (fun _ => 0) (fun _ => 0)
  have ha := h2 0 (by decide)
  have hb := h3 3 (by decide)
  exact ⟨h1, by simpa using ha.1, ha.2, hb.1⟩

/-- Counterexample for C6: at the valid id 0 of a built index storing the
zero vector, the self distance is the square root of two, not zero, because
the cosine similarity degenerates at a zero norm. -/
theorem get_distance_self_zero_vector_cx :
    get_distance zeroStore 0 0 ≠ .ok (0 : ℝ) := by
  have hn : get_n_items zeroStore = 1 := by decide
  have hvec : vecD zeroStore 0 = [(0 : ℚ)] := by decide
  have hd : get_distance zeroStore 0 0 =
      .ok (angular [(0 : ℚ)] [(0 : ℚ)]) := by
    unfold get_distance
    rw [if_pos (by rw [hn]; exact ⟨one_pos, one_pos⟩), hvec]
  rw [hd]
  intro hc
  have h2 : angular [(0 : ℚ)] [(0 : ℚ)] = 0 := by
    simpa using hc
  have hdot : dot [(0 : ℚ)] [(0 : ℚ)] = 0 := by norm_num [dot]
  simp only [angular, hdot, Rat.cast_zero, mul_zero, zero_mul,
    Real.sqrt_zero, div_zero, sub_zero] at h2
  rw [Real.sqrt_eq_zero'] at h2
  norm_num at h2

/-- C6 as amended: get_distance is symmetric in every pair of valid ids;
the self distance of a valid id is zero whenever the stored vector has
nonzero self dot product, and is the square root of two for a stored zero
vector, where the cosine degenerates. -/
theorem get_distance_symm_and_self_zero (s : Store) (i j : Nat)
    (hi : i < get_n_items s) (hj : j < get_n_items s) :
    get_distance s i j = get_distance s j i ∧
    (dot (vecD s i) (vecD s i) ≠ 0 → get_distance s i i = .ok (0 : ℝ)) ∧
    (dot (vecD s i) (vecD s i) = 0 →
      get_distance s i i = .ok (Real.sqrt 2)) := by
  refine ⟨?_, fun hz => ?_, fun hz => ?_⟩
  · unfold get_distance
    rw [if_pos ⟨hi, hj⟩, if_pos ⟨hj, hi⟩, angular_comm]
  · unfold get_distance
    rw [if_pos ⟨hi, hi⟩, angular_self _ hz]
  · unfold get_distance
    rw [if_pos ⟨hi, hi⟩, angular_self_zero _ hz]

/-- Witness for the amended C6: symmetry and zero self distance at a
concrete index with nonzero vectors, and the sqrt-2 self distance at the
zero-vector index. -/
theorem get_distance_symm_and_self_zero_witness :
    get_distance ⟨1, [[1], [2]], none, 0⟩ 0 1 =
      get_distance ⟨1, [[1], [2]], none, 0⟩ 1 0 ∧
    get_distance ⟨1, [[1], [2]], none, 0⟩ 0 0 = .ok (0 : ℝ) ∧
    get_distance zeroStore 0 0 = .ok (Real.sqrt 2) :=
  ⟨(get_distance_symm_and_self_zero ⟨1, [[1], [2]], none, 0⟩ 0 1
      (by decide) (by decide)).1,
    (get_distance_symm_and_self_zero ⟨1, [[1], [2]], none, 0⟩ 0 1
      (by decide) (by decide)).2.1 (by with_unfolding_all decide),
    (get_distance_symm_and_self_zero zeroStore 0 0
      (by decide) (by decide)).2.2 (by with_unfolding_all decide)⟩

/-- C1: a query by item on a built index never returns the query id
itself, for every n and search_k. -/
theorem query_by_item_excludes_self (s : Store) (item n : Nat) (sk : Int)
    (hb : s.forest.isSome) (hitem : item < get_n_items s) :
    item ∉ resultList (get_nns_by_item_ids s item n sk) := by
  obtain ⟨ts, hts⟩ := Option.isSome_iff_exists.mp hb
  unfold get_nns_by_item_ids
  rw [if_pos hitem]
  simp only [query_core, hts, resultList]
  unfold query_core_trees
  intro hmem
  have h1 := List.take_subset _ _ hmem
  rw [(List.perm_insertionSort (rankRel s (vecD s item)) _).mem_iff] at h1
  simp [exclFilter] at h1

/-- Witness for C1 at a concrete built index and valid id. -/
theorem query_by_item_excludes_self_witness :
    0 ∉ resultList
      (get_nns_by_item_ids (build ⟨1, [[1], [2]], none, 0⟩ 1 1).1 0 5
        (-1)) :=
  query_by_item_excludes_self (build ⟨1, [[1], [2]], none, 0⟩ 1 1).1 0 5
    (-1) (by decide) (by decide)

/-- Counterexample for C7, in two parts.  First, on a built two-item
index, get_nns_by_item with n = 3 greater than the item count and the
default search_k does not return all items: the query item 0 is itself a
stored item and is excluded from the result.  Second, on the built
twelve-item index, the same call with the positive search_k = 1 also
misses the stored item 6, which is not the query item: a positive
search_k bounds the candidates examined, so the claim also fails
independently of self-exclusion, forcing the amendment to the default
search_k. -/
theorem query_large_n_missing_item_cx :
    (0 < get_n_items (build ⟨1, [[1], [2]], none, 0⟩ 1 1).1 ∧
      0 ∉ resultList
        (get_nns_by_item_ids (build ⟨1, [[1], [2]], none, 0⟩ 1 1).1 0 3
          (-1))) ∧
    (6 < get_n_items bigStore ∧ get_n_items bigStore < 13 ∧
      6 ∉ resultList (get_nns_by_item_ids bigStore 0 13 1)) := by
  with_unfolding_all decide

/-- C7 as amended: on an index built from a nonempty store, a query by
item with the default (non-positive) search_k and n greater than the item
count succeeds and returns exactly the other items: every stored id except
the query item, each exactly once. -/
theorem query_by_item_large_n_returns_rest (s0 : Store) (q nt : Int)
    (item n : Nat) (sk : Int) (hf : s0.forest = none)
    (hne : s0.vectors.length ≠ 0) (hsk : sk ≤ 0)
    (hitem : item < get_n_items s0) (hn : get_n_items s0 < n) :
    ∃ out,
      get_nns_by_item_ids (build s0 q nt).1 item n sk = .ok out ∧
      out.Nodup ∧ ∀ j, j ∈ out ↔ (j < get_n_items s0 ∧ j ≠ item) := by
  have hbuild : (build s0 q nt).1 =
      { s0 with forest := some (buildForest s0.seed (qeff q) s0.vectors) } := by
    simp [build, hf, hne]
  set s := (build s0 q nt).1 with hs
  set F := buildForest s0.seed (qeff q) s0.vectors with hF
  set N := s0.vectors.length with hN
  have hsf : s.forest = some F := by rw [hbuild]
  have hsv : s.vectors = s0.vectors := by rw [hbuild]
  have hitem' : item < get_n_items s := by
    simpa [get_n_items, hsv] using hitem
  set qv := vecD s item with hqv
  set pq0 := F.map (fun t => ((0 : ℚ), t)) with hpq0
  have hqeff : 0 < qeff q := by
    unfold qeff
    split_ifs with h
    · norm_num [hardCapTrees]
    · omega
  have hL : F.length = qeff q := by simp [hF, buildForest]
  have htree : ∀ t ∈ F, (treePoints t).Perm (List.range N) := by
    intro t ht
    rw [hF, buildForest] at ht
    obtain ⟨k, -, rfl⟩ := List.mem_map.mp ht
    exact treePoints_buildTreeFuel s0.vectors N _ _
  have htlen : ∀ t ∈ F, (treePoints t).length = N := by
    intro t ht
    rw [(htree t ht).length_eq, List.length_range]
  have hmemEP : ∀ j, j ∈ entriesPoints pq0 ↔ j < N := by
    intro j
    constructor
    · intro hj
      obtain ⟨l, hl, hjl⟩ := List.mem_flatten.mp hj
      obtain ⟨e, he, rfl⟩ := List.mem_map.mp hl
      obtain ⟨t, ht, rfl⟩ := List.mem_map.mp he
      have := ((htree t ht).mem_iff).mp hjl
      simpa using this
    · intro hj
      have hFne : F ≠ [] := by
        have : 0 < F.length := by rw [hL]; exact hqeff
        exact List.length_pos.mp this
      obtain ⟨t0, ht0⟩ := List.exists_mem_of_ne_nil F hFne
      refine List.mem_flatten.mpr ⟨treePoints t0, ?_, ?_⟩
      · exact List.mem_map.mpr ⟨((0 : ℚ), t0),
          List.mem_map.mpr ⟨t0, ht0, rfl⟩, rfl⟩
      · exact ((htree t0 ht0).mem_iff).mpr (List.mem_range.mpr hj)
  have hEPlen : (entriesPoints pq0).length = N * F.length := by
    unfold entriesPoints
    rw [List.length_flatten, List.map_map, List.map_map]
    exact sum_map_const F _ N (fun t ht => htlen t ht)
  have hbudget : (0 : Nat) + (entriesPoints pq0).length <
      effective_search_k sk n F.length := by
    rw [effective_search_k_of_nonpos hsk, hEPlen, Nat.zero_add]
    have hLpos : 0 < F.length := by rw [hL]; exact hqeff
    have hNn : N < n := hn
    exact (Nat.mul_lt_mul_right hLpos).mpr hNn
  have hcands := searchLoop_exhausts qv (effective_search_k sk n F.length)
    (entriesSize pq0 + 1) pq0 [] (Nat.lt_succ_self _) (by simpa using hbudget)
  rw [List.nil_append] at hcands
  set cands := searchLoop qv (effective_search_k sk n F.length)
    (entriesSize pq0 + 1) pq0 [] with hcdef
  have hcmem : ∀ j, j ∈ cands ↔ j < N := by
    intro j
    rw [hcands.mem_iff]
    exact hmemEP j
  set dd2 := exclFilter (some item) cands.dedup with hdd2
  have hdd2f : dd2 = cands.dedup.filter (fun j => decide (j ≠ item)) := by
    simp [hdd2, exclFilter]
  have hdd2_mem : ∀ j, j ∈ dd2 ↔ (j < N ∧ j ≠ item) := by
    intro j
    rw [hdd2f, List.mem_filter, List.mem_dedup, hcmem j,
      decide_eq_true_eq]
  have hdd2_nodup : dd2.Nodup := by
    rw [hdd2f]
    exact (List.nodup_dedup cands).filter _
  set sorted := dd2.insertionSort (rankRel s qv) with hsorted
  have hsp : sorted.Perm dd2 := List.perm_insertionSort _ _
  have hslen : sorted.length ≤ n := by
    have h1 : sorted.length = dd2.length := hsp.length_eq
    have h2 : dd2.length ≤ cands.dedup.length := by
      rw [hdd2f]; exact List.length_filter_le _ _
    have h3 : cands.dedup.length ≤ N :=
      nodup_lt_length_le _ N (List.nodup_dedup cands)
        (fun x hx => (hcmem x).mp (List.mem_dedup.mp hx))
    have h4 : get_n_items s0 = N := rfl
    omega
  have hout : query_core_trees s qv n sk (some item) F = sorted := by
    unfold query_core_trees
    exact List.take_of_length_le hslen
  refine ⟨sorted, ?_, ?_, ?_⟩
  · unfold get_nns_by_item_ids
    rw [if_pos hitem']
    simp only [query_core, hsf]
    rw [hout]
  · exact hsp.nodup_iff.mpr hdd2_nodup
  · intro j
    rw [hsp.mem_iff]
    exact hdd2_mem j

/-- Witness for the amended C7 at a concrete two-item store, n = 3 and
search_k = -1. -/
theorem query_by_item_large_n_returns_rest_witness :
    ∃ out,
      get_nns_by_item_ids (build ⟨1, [[1], [2]], none, 0⟩ 1 1).1 0 3 (-1) =
        .ok out ∧
      out.Nodup ∧
      ∀ j, j ∈ out ↔
        (j < get_n_items (⟨1, [[1], [2]], none, 0⟩ : Store) ∧ j ≠ 0) :=
  query_by_item_large_n_returns_rest ⟨1, [[1], [2]], none, 0⟩ 1 1 0 3 (-1)
    rfl (by decide) (by decide) (by decide) (by decide)

end Annoy
